import Mathlib

/-!
Verification of the unknown-field preservation and extension-access layer of a
Protocol-Buffers wire codec (files `unknown_field_set.rs`, `ext.rs`, `types.rs`).

Buffers are modelled as `List Nat` of bytes; reading consumes from the front and
the remaining suffix is returned explicitly, modelling the `Buf` cursor.  A
`BufMut` write is modelled by returning the list of emitted bytes.  Machine
integers are modelled as `Nat` (or `Int` for the signed wrapper types) with
explicit `% 2 ^ w` where the Rust code truncates.

The low-level scalar primitive codec (`crate::encoding`) is an external
collaborator whose source is not part of the verified core; its operations are
modelled from the spec's wire-layout section and marked `Modelled from the
spec:` below.
-/

/-- Decode errors carry only a human-readable description. -/
abbrev DecodeError := String

/-- The five physical wire representations (`encoding::WireType`). -/
inductive WireType
  | Varint
  | SixtyFourBit
  | LengthDelimited
  | StartGroup
  | EndGroup
  | ThirtyTwoBit
deriving DecidableEq

/-- Modelled from the spec: the numeric wire-type codes
0 = Varint, 1 = Fixed64, 2 = LengthDelimited, 3 = StartGroup, 4 = EndGroup,
5 = Fixed32. -/
def WireType.toNat : WireType → Nat
  | .Varint => 0
  | .SixtyFourBit => 1
  | .LengthDelimited => 2
  | .StartGroup => 3
  | .EndGroup => 4
  | .ThirtyTwoBit => 5

/-- Modelled from the spec: decoding a wire-type code; codes 6 and 7 are
invalid. -/
def WireType.fromNat : Nat → Except DecodeError WireType
  | 0 => .ok .Varint
  | 1 => .ok .SixtyFourBit
  | 2 => .ok .LengthDelimited
  | 3 => .ok .StartGroup
  | 4 => .ok .EndGroup
  | 5 => .ok .ThirtyTwoBit
  | _ => .error "invalid wire type value"

/-- Modelled from the spec: `encoding::encode_varint`, unsigned LEB128 with 7
payload bits per byte and the continuation bit high. -/
def encode_varint (v : Nat) : List Nat :=
  if v < 128 then [v]
  else (v % 128 + 128) :: encode_varint (v / 128)
decreasing_by exact Nat.div_lt_self (by omega) (by omega)

/-- Modelled from the spec: `encoding::decode_varint`; fails if the buffer is
exhausted before a byte with a clear continuation bit is found. -/
def decode_varint : List Nat → Except DecodeError (Nat × List Nat)
  | [] => .error "invalid varint"
  | b :: rest =>
    if b < 128 then .ok (b, rest)
    else
      match decode_varint rest with
      | .ok (v, rest1) => .ok (b % 128 + 128 * v, rest1)
      | .error e => .error e

/-- Modelled from the spec: `encoding::encoded_len_varint`, the byte length
`encode_varint` produces. -/
def encoded_len_varint (v : Nat) : Nat :=
  (encode_varint v).length

/-- Modelled from the spec: `encoding::key_len`, the byte length of a field
key, computed from the field number shifted past the three wire-type bits. -/
def key_len (tag : Nat) : Nat :=
  encoded_len_varint (tag * 8)

/-- Modelled from the spec: `encoding::encode_key`, a varint equal to
`(field_number << 3) | wire_type`. -/
def encode_key (tag : Nat) (wire_type : WireType) : List Nat :=
  encode_varint (tag * 8 + wire_type.toNat)

/-- Splits a value into `n` little-endian bytes (`put_u32_le` / `put_u64_le`
truncate to the low `8 * n` bits). -/
def le_split : Nat → Nat → List Nat
  | 0, _ => []
  | n + 1, v => v % 256 :: le_split n (v / 256)

/-- Reads a little-endian byte sequence back as an unsigned integer
(`get_u32_le` / `get_u64_le`). -/
def le_bytes : List Nat → Nat
  | [] => 0
  | b :: t => b + 256 * le_bytes t

/-- Modelled from the spec: `encoding::bytes::merge` for a length-delimited
payload: a varint byte-length prefix followed by exactly that many raw bytes;
fails on a short buffer.  Returns the payload and the remaining buffer. -/
def bytes_merge (buf : List Nat) : Except DecodeError (List Nat × List Nat) :=
  match decode_varint buf with
  | .error e => .error e
  | .ok (len, rest) =>
    if rest.length < len then .error "buffer underflow"
    else .ok (rest.take len, rest.drop len)

/-- Modelled from the spec: `encoding::decode_key`, splitting one varint into
field number and wire type. -/
def decode_key (buf : List Nat) : Except DecodeError (Nat × WireType × List Nat) :=
  match decode_varint buf with
  | .error e => .error e
  | .ok (key, rest) =>
    match WireType.fromNat (key % 8) with
    | .error e => .error e
    | .ok w => .ok (key / 8, w, rest)

/-- Modelled from the spec: the group-skipping loop of `encoding::skip_field`:
consume whole fields (recursively for nested groups) until the matching
end-group key.  The `fuel` argument bounds the recursion; the Rust recursion is
bounded by the buffer length, so callers pass `buf.length + 1`. -/
def skip_group : Nat → Nat → List Nat → Except DecodeError (List Nat)
  | 0, _, _ => .error "recursion limit reached"
  | fuel + 1, tag, buf =>
    match decode_key buf with
    | .error e => .error e
    | .ok (t, w, rest) =>
      match w with
      | .EndGroup =>
        if t = tag then .ok rest else .error "unexpected end group tag"
      | .StartGroup =>
        match skip_group fuel t rest with
        | .ok rest1 => skip_group fuel tag rest1
        | .error e => .error e
      | .Varint =>
        match decode_varint rest with
        | .ok (_, rest1) => skip_group fuel tag rest1
        | .error e => .error e
      | .SixtyFourBit =>
        if rest.length < 8 then .error "buffer underflow"
        else skip_group fuel tag (rest.drop 8)
      | .ThirtyTwoBit =>
        if rest.length < 4 then .error "buffer underflow"
        else skip_group fuel tag (rest.drop 4)
      | .LengthDelimited =>
        match bytes_merge rest with
        | .ok (_, rest1) => skip_group fuel tag rest1
        | .error e => .error e

/-- Modelled from the spec: `encoding::skip_field`, the generic field-skip
dispatcher. -/
def skip_field (fuel : Nat) (wire_type : WireType) (tag : Nat) (buf : List Nat) :
    Except DecodeError (List Nat) :=
  match wire_type with
  | .Varint =>
    match decode_varint buf with
    | .ok (_, rest) => .ok rest
    | .error e => .error e
  | .SixtyFourBit =>
    if buf.length < 8 then .error "buffer underflow" else .ok (buf.drop 8)
  | .ThirtyTwoBit =>
    if buf.length < 4 then .error "buffer underflow" else .ok (buf.drop 4)
  | .LengthDelimited =>
    match bytes_merge buf with
    | .ok (_, rest) => .ok rest
    | .error e => .error e
  | .StartGroup => skip_group fuel tag buf
  | .EndGroup => .error "unexpected end group tag"

/-- The tagged union of the four storable wire shapes
(`UnknownFieldData` in `unknown_field_set.rs`). -/
inductive UnknownFieldData
  | Varint (value : Nat)
  | SixtyFourBit (value : Nat)
  | LengthDelimited (value : List Nat)
  | ThirtyTwoBit (value : Nat)
deriving DecidableEq

/-- Debug rendering of a stored value, as Rust's derived `Debug` prints it
inside the error messages of `decode_from_unknown`. -/
def UnknownFieldData.debugStr : UnknownFieldData → String
  | .Varint v => "Varint(" ++ toString v ++ ")"
  | .SixtyFourBit v => "SixtyFourBit(" ++ toString v ++ ")"
  | .LengthDelimited v => "LengthDelimited(" ++ toString v ++ ")"
  | .ThirtyTwoBit v => "ThirtyTwoBit(" ++ toString v ++ ")"

/-- One unknown field: field number plus stored wire shape
(`UnknownField` in `unknown_field_set.rs`). -/
structure UnknownField where
  tag : Nat
  data : UnknownFieldData
deriving DecidableEq

/-- The wire type the encoder reconstructs from a stored value's variant. -/
def UnknownFieldData.wire_type : UnknownFieldData → WireType
  | .Varint _ => .Varint
  | .SixtyFourBit _ => .SixtyFourBit
  | .LengthDelimited _ => .LengthDelimited
  | .ThirtyTwoBit _ => .ThirtyTwoBit

/-- Modelled from the spec: `encoding::uint64::encoded_len`, key length plus
varint payload length. -/
def uint64_encoded_len (tag : Nat) (value : Nat) : Nat :=
  key_len tag + encoded_len_varint value

/-- Modelled from the spec: `encoding::fixed64::encoded_len`, key length plus
8 payload bytes. -/
def fixed64_encoded_len (tag : Nat) (_value : Nat) : Nat :=
  key_len tag + 8

/-- Modelled from the spec: `encoding::fixed32::encoded_len`, key length plus
4 payload bytes. -/
def fixed32_encoded_len (tag : Nat) (_value : Nat) : Nat :=
  key_len tag + 4

/-- Modelled from the spec: `encoding::bytes::encoded_len`, key length plus
varint length prefix plus payload bytes. -/
def bytes_encoded_len (tag : Nat) (value : List Nat) : Nat :=
  key_len tag + encoded_len_varint value.length + value.length

/-- The payload-parsing closure `f` inside `UnknownField::parse`: either an
error, or an optional stored value (`none` for a skipped group) together with
the remaining buffer. -/
def UnknownField.parseData (tag : Nat) (wire_type : WireType) (buf : List Nat) :
    Except DecodeError (Option UnknownFieldData × List Nat) :=
  match wire_type with
  | .Varint =>
    match decode_varint buf with
    | .ok (val, rest) => .ok (some (.Varint val), rest)
    | .error e => .error e
  | .ThirtyTwoBit =>
    if buf.length < 4 then .error "buffer underflow"
    else .ok (some (.ThirtyTwoBit (le_bytes (buf.take 4))), buf.drop 4)
  | .SixtyFourBit =>
    if buf.length < 8 then .error "buffer underflow"
    else .ok (some (.SixtyFourBit (le_bytes (buf.take 8))), buf.drop 8)
  | .LengthDelimited =>
    match bytes_merge buf with
    | .ok (field_buf, rest) => .ok (some (.LengthDelimited field_buf), rest)
    | .error e => .error e
  | .StartGroup =>
    match skip_field (buf.length + 1) .StartGroup tag buf with
    | .ok rest => .ok (none, rest)
    | .error e => .error e
  | .EndGroup => .error "unexpected end group tag"

/-- `UnknownField::parse`: `none` means a skipped group stored nothing;
`some` carries the parsed field or the decode error.  The second component is
the buffer cursor after the call (on error the Rust buffer is left partially
consumed; no caller reads it, and the model returns the original buffer). -/
def UnknownField.parse (tag : Nat) (wire_type : WireType) (buf : List Nat) :
    Option (Except DecodeError UnknownField) × List Nat :=
  match UnknownField.parseData tag wire_type buf with
  | .error e => (some (.error e), buf)
  | .ok (none, rest) => (none, rest)
  | .ok (some data, rest) => (some (.ok ⟨tag, data⟩), rest)

/-- `UnknownField::encode`: the field key (wire type reconstructed from the
variant) followed by the payload. -/
def UnknownField.encode (f : UnknownField) : List Nat :=
  match f.data with
  | .Varint value => encode_key f.tag .Varint ++ encode_varint value
  | .SixtyFourBit value => encode_key f.tag .SixtyFourBit ++ le_split 8 value
  | .LengthDelimited value =>
    encode_key f.tag .LengthDelimited ++ encode_varint value.length ++ value
  | .ThirtyTwoBit value => encode_key f.tag .ThirtyTwoBit ++ le_split 4 value

/-- `UnknownField::encoded_len`, dispatching to the per-shape scalar length
functions exactly as the source does. -/
def UnknownField.encoded_len (f : UnknownField) : Nat :=
  match f.data with
  | .Varint value => uint64_encoded_len f.tag value
  | .SixtyFourBit value => fixed64_encoded_len f.tag value
  | .LengthDelimited value => bytes_encoded_len f.tag value
  | .ThirtyTwoBit value => fixed32_encoded_len f.tag value

/-- `BTreeMap::insert` on the sorted association list modelling the map:
keeps keys strictly ascending, replacing the value at an existing key. -/
def btree_insert (k : Nat) (v : UnknownField) :
    List (Nat × UnknownField) → List (Nat × UnknownField)
  | [] => [(k, v)]
  | (k1, v1) :: t =>
    if k < k1 then (k, v) :: (k1, v1) :: t
    else if k = k1 then (k, v) :: t
    else (k1, v1) :: btree_insert k v t

/-- `BTreeMap::get` on the sorted association list modelling the map. -/
def btree_get (k : Nat) : List (Nat × UnknownField) → Option UnknownField
  | [] => none
  | (k1, v1) :: t => if k1 = k then some v1 else btree_get k t

/-- `UnknownFieldSet`: the lazily-allocated per-message store.  The `Option`
models the `Option<Box<BTreeMap<u32, UnknownField>>>` of the source; `none`
is the zero-allocation empty representation. -/
structure UnknownFieldSet where
  data : Option (List (Nat × UnknownField))
deriving DecidableEq

/-- `UnknownFieldSet::default()`: the derived `Default` leaves the option
empty. -/
def UnknownFieldSet.default : UnknownFieldSet := ⟨none⟩

/-- `UnknownFieldSet::insert`. -/
def UnknownFieldSet.insert (s : UnknownFieldSet) (tag : Nat) (field : UnknownField) :
    UnknownFieldSet :=
  match s.data with
  | some m => ⟨some (btree_insert tag field m)⟩
  | none => ⟨some [(tag, field)]⟩

/-- `UnknownFieldSet::skip_unknown_field`: parse, then insert on a stored
value, do nothing on a group skip, propagate the error otherwise.  The result
carries the `Result<(), DecodeError>`, the updated set (`&mut self`) and the
buffer cursor. -/
def UnknownFieldSet.skip_unknown_field (s : UnknownFieldSet) (tag : Nat)
    (wire_type : WireType) (buf : List Nat) :
    Except DecodeError Unit × UnknownFieldSet × List Nat :=
  match UnknownField.parse tag wire_type buf with
  | (none, rest) => (.ok (), s, rest)
  | (some (.ok field), rest) => (.ok (), s.insert tag field, rest)
  | (some (.error e), rest) => (.error e, s, rest)

/-- `UnknownFieldSet::encode`: emit every stored entry in map iteration
order. -/
def UnknownFieldSet.encode (s : UnknownFieldSet) : List Nat :=
  match s.data with
  | some m => (m.map fun p => p.2.encode).flatten
  | none => []

/-- `UnknownFieldSet::encoded_len`: fold the per-entry lengths. -/
def UnknownFieldSet.encoded_len (s : UnknownFieldSet) : Nat :=
  match s.data with
  | some m => m.foldl (fun len p => len + p.2.encoded_len) 0
  | none => 0

/-- The stored entries in map iteration order. -/
def UnknownFieldSet.entries (s : UnknownFieldSet) : List (Nat × UnknownField) :=
  match s.data with
  | some m => m
  | none => []

/-- The stored field numbers in map iteration order. -/
def UnknownFieldSet.keys (s : UnknownFieldSet) : List Nat :=
  s.entries.map Prod.fst

/-- Number of stored entries. -/
def UnknownFieldSet.size (s : UnknownFieldSet) : Nat :=
  s.entries.length

/-- Lookup of a stored field by field number (the `m1.get(&field_number)` used
by the extension accessor). -/
def UnknownFieldSet.get (s : UnknownFieldSet) (k : Nat) : Option UnknownField :=
  match s.data with
  | some m => btree_get k m
  | none => none

/-- The map invariant documented in the source: if the `Option` is non-empty,
the `BTreeMap` is also non-empty; and the keys are in strictly ascending
(`BTreeMap`) order. -/
def UnknownFieldSet.WFMap (s : UnknownFieldSet) : Prop :=
  (∀ m, s.data = some m → m ≠ []) ∧ List.Sorted (· < ·) s.keys

/-- An owning message, reduced to the one capability the extension accessor
uses: it embeds an `UnknownFieldSet`. -/
structure OwningMessage where
  unknown_fields : UnknownFieldSet
deriving DecidableEq

/-- Modelled from the spec: `Message::get_unknown_fields`, exposing the
message's unknown-field backing map when it exists (`ext.rs` feeds its result
straight into a map lookup). -/
def OwningMessage.get_unknown_fields (m : OwningMessage) :
    Option (List (Nat × UnknownField)) :=
  m.unknown_fields.data

/-- `ExtFieldOptional`: a stateless typed read view bound to one field number.
The target type `F` of the Rust struct appears as the type argument of `get`. -/
structure ExtFieldOptional where
  field_number : Nat

/-- `ExtFieldOptional::get`: look up the field number in the owning message's
unknown fields and decode on demand.  `decode_from_unknown` stands for the
`F: Message` trait method of the target type. -/
def ExtFieldOptional.get {F : Type} (e : ExtFieldOptional)
    (decode_from_unknown : UnknownField → Except DecodeError F)
    (m : OwningMessage) : Option (Except DecodeError F) :=
  ((m.get_unknown_fields).bind fun m1 => btree_get e.field_number m1).map
    decode_from_unknown

/-- Modelled from the spec: `encoding::bool::encode`, the key followed by a
single byte 1 or 0. -/
def bool_encode (tag : Nat) (value : Bool) : List Nat :=
  encode_key tag .Varint ++ [if value then 1 else 0]

/-- Modelled from the spec: `encoding::uint32::encode`, key plus varint. -/
def uint32_encode (tag : Nat) (value : Nat) : List Nat :=
  encode_key tag .Varint ++ encode_varint value

/-- Modelled from the spec: `encoding::uint64::encode`, key plus varint. -/
def uint64_encode (tag : Nat) (value : Nat) : List Nat :=
  encode_key tag .Varint ++ encode_varint value

/-- The `value as u64` cast Rust applies to a signed value before varint
encoding: two's-complement reinterpretation in 64 bits. -/
def int_as_u64 (value : Int) : Nat :=
  (value % (2 ^ 64 : Int)).toNat

/-- Modelled from the spec: `encoding::int32::encode`, key plus varint of the
sign-extended 64-bit pattern. -/
def int32_encode (tag : Nat) (value : Int) : List Nat :=
  encode_key tag .Varint ++ encode_varint (int_as_u64 value)

/-- Modelled from the spec: `encoding::int64::encode`. -/
def int64_encode (tag : Nat) (value : Int) : List Nat :=
  encode_key tag .Varint ++ encode_varint (int_as_u64 value)

/-- Modelled from the spec: `encoding::float::encode`, key plus the 4
little-endian bytes of the IEEE-754 bit pattern (an `f32` is modelled by its
bit pattern). -/
def float_encode (tag : Nat) (bits : Nat) : List Nat :=
  encode_key tag .ThirtyTwoBit ++ le_split 4 bits

/-- Modelled from the spec: `encoding::double::encode`, key plus the 8
little-endian bytes of the IEEE-754 bit pattern. -/
def double_encode (tag : Nat) (bits : Nat) : List Nat :=
  encode_key tag .SixtyFourBit ++ le_split 8 bits

/-- Modelled from the spec: `encoding::bytes::encode` (also used for strings,
which are modelled as their UTF-8 byte sequences): key, varint length prefix,
raw bytes. -/
def bytes_encode (tag : Nat) (value : List Nat) : List Nat :=
  encode_key tag .LengthDelimited ++ encode_varint value.length ++ value

/-- Modelled from the spec: `encoding::uint32::encoded_len`. -/
def uint32_encoded_len (tag : Nat) (value : Nat) : Nat :=
  key_len tag + encoded_len_varint value

/-- Modelled from the spec: `encoding::int32::encoded_len` /
`encoding::int64::encoded_len`, lengths of the sign-extended varint. -/
def int_encoded_len (tag : Nat) (value : Int) : Nat :=
  key_len tag + encoded_len_varint (int_as_u64 value)

/-- Modelled from the spec: `encoding::float::encoded_len`. -/
def float_encoded_len (tag : Nat) (_bits : Nat) : Nat :=
  key_len tag + 4

/-- Modelled from the spec: `encoding::double::encoded_len`. -/
def double_encoded_len (tag : Nat) (_bits : Nat) : Nat :=
  key_len tag + 8

/-- The IEEE-754 test `value == 0.0` on an `f32` bit pattern: true exactly on
positive and negative zero (NaN compares unequal, every other pattern is a
nonzero number). -/
def f32_eq_zero (bits : Nat) : Bool :=
  bits == 0 || bits == 2147483648

/-- The IEEE-754 test `value == 0.0` on an `f64` bit pattern. -/
def f64_eq_zero (bits : Nat) : Bool :=
  bits == 0 || bits == 9223372036854775808

/-- `impl Message for bool`, `encode_raw`: emit field 1 iff the value is
true. -/
def BoolValue.encode_raw (self : Bool) : List Nat :=
  if self then bool_encode 1 self else []

/-- `impl Message for bool`, `encoded_len`: hardcoded 2 when true. -/
def BoolValue.encoded_len (self : Bool) : Nat :=
  if self then 2 else 0

/-- `impl Message for bool`, `decode_from_unknown`: any nonzero varint is
true. -/
def BoolValue.decode_from_unknown (f : UnknownField) : Except DecodeError Bool :=
  match f.data with
  | .Varint b => .ok (b != 0)
  | ufd => .error ("cannot decode bool from " ++ ufd.debugStr)

/-- `impl Message for u32`, `encode_raw`. -/
def UInt32Value.encode_raw (self : Nat) : List Nat :=
  if self ≠ 0 then uint32_encode 1 self else []

/-- `impl Message for u32`, `encoded_len`. -/
def UInt32Value.encoded_len (self : Nat) : Nat :=
  if self ≠ 0 then uint32_encoded_len 1 self else 0

/-- `impl Message for u64`, `encode_raw`. -/
def UInt64Value.encode_raw (self : Nat) : List Nat :=
  if self ≠ 0 then uint64_encode 1 self else []

/-- `impl Message for u64`, `encoded_len`. -/
def UInt64Value.encoded_len (self : Nat) : Nat :=
  if self ≠ 0 then uint64_encoded_len 1 self else 0

/-- `impl Message for u64`, `decode_from_unknown`: a stored `SixtyFourBit` or
`Varint` value is returned as-is, anything else is a mismatch error. -/
def UInt64Value.decode_from_unknown (f : UnknownField) : Except DecodeError Nat :=
  match f.data with
  | .SixtyFourBit u => .ok u
  | .Varint u => .ok u
  | ufd => .error ("cannot decode u64 from " ++ ufd.debugStr)

/-- `impl Message for i32`, `encode_raw`. -/
def Int32Value.encode_raw (self : Int) : List Nat :=
  if self ≠ 0 then int32_encode 1 self else []

/-- `impl Message for i32`, `encoded_len`. -/
def Int32Value.encoded_len (self : Int) : Nat :=
  if self ≠ 0 then int_encoded_len 1 self else 0

/-- `impl Message for i64`, `encode_raw`. -/
def Int64Value.encode_raw (self : Int) : List Nat :=
  if self ≠ 0 then int64_encode 1 self else []

/-- `impl Message for i64`, `encoded_len`. -/
def Int64Value.encoded_len (self : Int) : Nat :=
  if self ≠ 0 then int_encoded_len 1 self else 0

/-- `impl Message for f32`, `encode_raw` (`*self != 0.0`), on the bit-pattern
model. -/
def FloatValue.encode_raw (bits : Nat) : List Nat :=
  if !(f32_eq_zero bits) then float_encode 1 bits else []

/-- `impl Message for f32`, `encoded_len`. -/
def FloatValue.encoded_len (bits : Nat) : Nat :=
  if !(f32_eq_zero bits) then float_encoded_len 1 bits else 0

/-- `impl Message for f64`, `encode_raw`. -/
def DoubleValue.encode_raw (bits : Nat) : List Nat :=
  if !(f64_eq_zero bits) then double_encode 1 bits else []

/-- `impl Message for f64`, `encoded_len`. -/
def DoubleValue.encoded_len (bits : Nat) : Nat :=
  if !(f64_eq_zero bits) then double_encoded_len 1 bits else 0

/-- `impl Message for String`, `encode_raw`, on the UTF-8 byte-sequence
model. -/
def StringValue.encode_raw (self : List Nat) : List Nat :=
  if self ≠ [] then bytes_encode 1 self else []

/-- `impl Message for String`, `encoded_len`. -/
def StringValue.encoded_len (self : List Nat) : Nat :=
  if self ≠ [] then bytes_encoded_len 1 self else 0

/-- `impl Message for Vec<u8>`, `encode_raw`. -/
def BytesValue.encode_raw (self : List Nat) : List Nat :=
  if self ≠ [] then bytes_encode 1 self else []

/-- `impl Message for Vec<u8>`, `encoded_len`. -/
def BytesValue.encoded_len (self : List Nat) : Nat :=
  if self ≠ [] then bytes_encoded_len 1 self else 0

/-- `impl Message for ()`, `encode_raw`: always empty. -/
def EmptyValue.encode_raw (_self : Unit) : List Nat :=
  []

/-- `impl Message for ()`, `encoded_len`: always 0. -/
def EmptyValue.encoded_len (_self : Unit) : Nat :=
  0

/-- Well-formedness of a stored field with respect to the Rust machine types:
the payload fits the `u64` / `u32` / `Vec<u8>` it is stored in. -/
def UnknownField.WF (f : UnknownField) : Prop :=
  match f.data with
  | .Varint v => v < 2 ^ 64
  | .SixtyFourBit v => v < 2 ^ 64
  | .ThirtyTwoBit v => v < 2 ^ 32
  | .LengthDelimited bs => ∀ b ∈ bs, b < 256

instance (f : UnknownField) : Decidable f.WF := by
  unfold UnknownField.WF
  match f.data with
  | .Varint v => exact inferInstance
  | .SixtyFourBit v => exact inferInstance
  | .ThirtyTwoBit v => exact inferInstance
  | .LengthDelimited bs => exact inferInstance

theorem decode_encode_varint (v : Nat) :
    ∀ rest, decode_varint (encode_varint v ++ rest) = .ok (v, rest) := by
  induction v using Nat.strong_induction_on with
  | _ v ih =>
    intro rest
    rw [encode_varint]
    by_cases h : v < 128
    · simp [h, decode_varint]
    · have hd : v / 128 < v := Nat.div_lt_self (by omega) (by omega)
      have hb : ¬ (v % 128 + 128 < 128) := by omega
      simp only [if_neg h, List.cons_append, decode_varint, hb, ite_false, ih _ hd rest]
      have h1 : (v % 128 + 128) % 128 + 128 * (v / 128) = v := by omega
      rw [h1]

theorem encoded_len_varint_congr {a b : Nat} (h : a / 128 = b / 128) :
    encoded_len_varint a = encoded_len_varint b := by
  unfold encoded_len_varint
  conv_lhs => rw [encode_varint]
  conv_rhs => rw [encode_varint]
  by_cases ha : a < 128
  · have hb : b < 128 := by omega
    simp [ha, hb]
  · have hb : ¬ b < 128 := by omega
    simp [ha, hb, h]

theorem length_encode_key (tag : Nat) (wire_type : WireType) :
    (encode_key tag wire_type).length = key_len tag := by
  have step : ∀ w, w ≤ 5 → (encode_varint (tag * 8 + w)).length = key_len tag := by
    intro w hw
    show encoded_len_varint (tag * 8 + w) = key_len tag
    unfold key_len
    exact encoded_len_varint_congr (by omega)
  cases wire_type <;> simp only [encode_key, WireType.toNat] <;> exact step _ (by omega)

theorem le_split_length (n v : Nat) : (le_split n v).length = n := by
  induction n generalizing v with
  | zero => rfl
  | succ n ih => simp [le_split, ih]

theorem le_bytes_le_split (n v : Nat) : le_bytes (le_split n v) = v % 256 ^ n := by
  induction n generalizing v with
  | zero => simp [le_split, le_bytes, Nat.mod_one]
  | succ n ih =>
    simp only [le_split, le_bytes, ih]
    rw [pow_succ, mul_comm (256 ^ n) 256, Nat.mod_mul]

theorem encoded_len_eq_length_encode (f : UnknownField) :
    f.encoded_len = f.encode.length := by
  obtain ⟨tag, data⟩ := f
  cases data <;>
    simp [UnknownField.encoded_len, UnknownField.encode, uint64_encoded_len,
      fixed64_encoded_len, fixed32_encoded_len, bytes_encoded_len,
      length_encode_key, le_split_length, encoded_len_varint, Nat.add_assoc]

theorem btree_insert_nil (k : Nat) (v : UnknownField) :
    btree_insert k v [] = [(k, v)] := rfl

theorem btree_insert_cons_lt {k k1 : Nat} (h : k < k1) (v v1 : UnknownField)
    (t : List (Nat × UnknownField)) :
    btree_insert k v ((k1, v1) :: t) = (k, v) :: (k1, v1) :: t := by
  simp [btree_insert, h]

theorem btree_insert_cons_eq {k k1 : Nat} (h : k = k1) (v v1 : UnknownField)
    (t : List (Nat × UnknownField)) :
    btree_insert k v ((k1, v1) :: t) = (k, v) :: t := by
  subst h
  simp [btree_insert]

theorem btree_insert_cons_gt {k k1 : Nat} (h : k1 < k) (v v1 : UnknownField)
    (t : List (Nat × UnknownField)) :
    btree_insert k v ((k1, v1) :: t) = (k1, v1) :: btree_insert k v t := by
  have h1 : ¬ k < k1 := by omega
  have h2 : ¬ k = k1 := by omega
  simp [btree_insert, h1, h2]

theorem btree_get_insert_self (k : Nat) (v : UnknownField)
    (m : List (Nat × UnknownField)) :
    btree_get k (btree_insert k v m) = some v := by
  induction m with
  | nil => simp [btree_insert, btree_get]
  | cons p t ih =>
    obtain ⟨k1, v1⟩ := p
    rcases Nat.lt_trichotomy k k1 with h | h | h
    · rw [btree_insert_cons_lt h]
      simp [btree_get]
    · rw [btree_insert_cons_eq h]
      simp [btree_get]
    · rw [btree_insert_cons_gt h]
      have h2 : ¬ k1 = k := by omega
      simp [btree_get, h2, ih]

theorem btree_get_insert_ne {j k : Nat} (hjk : j ≠ k) (v : UnknownField)
    (m : List (Nat × UnknownField)) :
    btree_get j (btree_insert k v m) = btree_get j m := by
  have hkj : ¬ k = j := fun hh => hjk hh.symm
  induction m with
  | nil => simp [btree_insert, btree_get, hkj]
  | cons p t ih =>
    obtain ⟨k1, v1⟩ := p
    rcases Nat.lt_trichotomy k k1 with h | h | h
    · rw [btree_insert_cons_lt h]
      simp [btree_get, hkj]
    · rw [btree_insert_cons_eq h]
      subst h
      simp [btree_get, hkj]
    · rw [btree_insert_cons_gt h]
      simp [btree_get, ih]

theorem btree_insert_insert_same (k : Nat) (v1 v2 : UnknownField)
    (m : List (Nat × UnknownField)) :
    btree_insert k v2 (btree_insert k v1 m) = btree_insert k v2 m := by
  induction m with
  | nil =>
    rw [btree_insert_nil, btree_insert_cons_eq rfl, btree_insert_nil]
  | cons p t ih =>
    obtain ⟨k1, v1'⟩ := p
    rcases Nat.lt_trichotomy k k1 with h | h | h
    · rw [btree_insert_cons_lt h, btree_insert_cons_eq rfl, btree_insert_cons_lt h]
    · rw [btree_insert_cons_eq h, btree_insert_cons_eq rfl, btree_insert_cons_eq h]
    · rw [btree_insert_cons_gt h, btree_insert_cons_gt h, btree_insert_cons_gt h, ih]

theorem btree_insert_comm {a b : Nat} (hab : a ≠ b) (va vb : UnknownField)
    (m : List (Nat × UnknownField)) :
    btree_insert b vb (btree_insert a va m) = btree_insert a va (btree_insert b vb m) := by
  induction m with
  | nil =>
    rcases Nat.lt_trichotomy a b with h | h | h
    · rw [btree_insert_nil, btree_insert_cons_gt h, btree_insert_nil,
        btree_insert_cons_lt h]
    · exact absurd h hab
    · rw [btree_insert_nil, btree_insert_cons_lt h, btree_insert_nil,
        btree_insert_cons_gt h, btree_insert_nil]
  | cons p t ih =>
    obtain ⟨k1, w1⟩ := p
    rcases Nat.lt_trichotomy a k1 with ha | ha | ha <;>
      rcases Nat.lt_trichotomy b k1 with hb | hb | hb
    · rcases Nat.lt_trichotomy a b with h | h | h
      · rw [btree_insert_cons_lt ha, btree_insert_cons_gt h, btree_insert_cons_lt hb,
          btree_insert_cons_lt h]
      · exact absurd h hab
      · rw [btree_insert_cons_lt ha, btree_insert_cons_lt h, btree_insert_cons_lt hb,
          btree_insert_cons_gt h, btree_insert_cons_lt ha]
    · have h : a < b := by omega
      rw [btree_insert_cons_lt ha, btree_insert_cons_gt h, btree_insert_cons_eq hb,
        btree_insert_cons_lt h]
    · have h : a < b := by omega
      rw [btree_insert_cons_lt ha, btree_insert_cons_gt h, btree_insert_cons_gt hb,
        btree_insert_cons_lt ha]
    · have h : b < a := by omega
      rw [btree_insert_cons_eq ha, btree_insert_cons_lt h, btree_insert_cons_lt hb,
        btree_insert_cons_gt h, btree_insert_cons_eq ha]
    · exact absurd (ha.trans hb.symm) hab
    · have h : a < b := by omega
      rw [btree_insert_cons_eq ha, btree_insert_cons_gt h, btree_insert_cons_gt hb,
        btree_insert_cons_eq ha]
    · have h : b < a := by omega
      rw [btree_insert_cons_gt ha, btree_insert_cons_lt hb, btree_insert_cons_lt hb,
        btree_insert_cons_gt h, btree_insert_cons_gt ha]
    · have h : b < a := by omega
      rw [btree_insert_cons_gt ha, btree_insert_cons_eq hb, btree_insert_cons_eq hb,
        btree_insert_cons_gt h]
    · rw [btree_insert_cons_gt ha, btree_insert_cons_gt hb, btree_insert_cons_gt hb,
        btree_insert_cons_gt ha, ih]

theorem keys_btree_insert_value (k : Nat) (v1 v2 : UnknownField)
    (m : List (Nat × UnknownField)) :
    (btree_insert k v1 m).map Prod.fst = (btree_insert k v2 m).map Prod.fst := by
  induction m with
  | nil => rfl
  | cons p t ih =>
    obtain ⟨k1, w1⟩ := p
    rcases Nat.lt_trichotomy k k1 with h | h | h
    · rw [btree_insert_cons_lt h, btree_insert_cons_lt h]
      simp
    · rw [btree_insert_cons_eq h, btree_insert_cons_eq h]
      simp
    · rw [btree_insert_cons_gt h, btree_insert_cons_gt h]
      simp [ih]

theorem mem_keys_btree_insert {j k : Nat} {v : UnknownField} :
    ∀ {m : List (Nat × UnknownField)},
      j ∈ (btree_insert k v m).map Prod.fst → j = k ∨ j ∈ m.map Prod.fst := by
  intro m
  induction m with
  | nil =>
    intro hj
    rw [btree_insert_nil] at hj
    simp only [List.map_cons, List.map_nil, List.mem_singleton] at hj
    exact Or.inl hj
  | cons p t ih =>
    obtain ⟨k1, w1⟩ := p
    intro hj
    rcases Nat.lt_trichotomy k k1 with h | h | h
    · rw [btree_insert_cons_lt h] at hj
      simp only [List.map_cons, List.mem_cons] at hj ⊢
      tauto
    · rw [btree_insert_cons_eq h] at hj
      simp only [List.map_cons, List.mem_cons] at hj ⊢
      tauto
    · rw [btree_insert_cons_gt h] at hj
      simp only [List.map_cons, List.mem_cons] at hj ⊢
      rcases hj with hj | hj
      · tauto
      · rcases ih hj with hh | hh <;> tauto

theorem sorted_btree_insert {k : Nat} {v : UnknownField}
    {m : List (Nat × UnknownField)}
    (h : List.Sorted (· < ·) (m.map Prod.fst)) :
    List.Sorted (· < ·) ((btree_insert k v m).map Prod.fst) := by
  induction m with
  | nil => simp [btree_insert]
  | cons p t ih =>
    obtain ⟨k1, w1⟩ := p
    simp only [List.map_cons, List.sorted_cons] at h
    rcases Nat.lt_trichotomy k k1 with hc | hc | hc
    · rw [btree_insert_cons_lt hc]
      simp only [List.map_cons, List.sorted_cons]
      refine ⟨?_, h.1, h.2⟩
      intro b hb
      simp only [List.mem_cons] at hb
      rcases hb with hb | hb
      · omega
      · have := h.1 b hb
        omega
    · rw [btree_insert_cons_eq hc]
      subst hc
      simp only [List.map_cons, List.sorted_cons]
      exact h
    · rw [btree_insert_cons_gt hc]
      simp only [List.map_cons, List.sorted_cons]
      constructor
      · intro b hb
        rcases mem_keys_btree_insert hb with hh | hh
        · omega
        · exact h.1 b hh
      · exact ih h.2

theorem btree_insert_ne_nil (k : Nat) (v : UnknownField)
    (m : List (Nat × UnknownField)) : btree_insert k v m ≠ [] := by
  cases m with
  | nil => simp [btree_insert]
  | cons p t =>
    obtain ⟨k1, v1⟩ := p
    rcases Nat.lt_trichotomy k k1 with h | h | h
    · rw [btree_insert_cons_lt h]
      simp
    · rw [btree_insert_cons_eq h]
      simp
    · rw [btree_insert_cons_gt h]
      simp

theorem set_insert_get_self (s : UnknownFieldSet) (k : Nat) (f : UnknownField) :
    (s.insert k f).get k = some f := by
  obtain ⟨d⟩ := s
  cases d with
  | none => simp [UnknownFieldSet.insert, UnknownFieldSet.get, btree_get]
  | some m => simp [UnknownFieldSet.insert, UnknownFieldSet.get, btree_get_insert_self]

theorem set_insert_get_ne (s : UnknownFieldSet) {j k : Nat} (h : j ≠ k)
    (f : UnknownField) : (s.insert k f).get j = s.get j := by
  obtain ⟨d⟩ := s
  cases d with
  | none =>
    have hkj : ¬ k = j := fun hh => h hh.symm
    simp [UnknownFieldSet.insert, UnknownFieldSet.get, btree_get, hkj]
  | some m => simp [UnknownFieldSet.insert, UnknownFieldSet.get, btree_get_insert_ne h]

theorem set_insert_insert_same (s : UnknownFieldSet) (k : Nat)
    (f1 f2 : UnknownField) : (s.insert k f1).insert k f2 = s.insert k f2 := by
  obtain ⟨d⟩ := s
  cases d with
  | none =>
    simp only [UnknownFieldSet.insert]
    rw [btree_insert_cons_eq rfl]
  | some m => simp [UnknownFieldSet.insert, btree_insert_insert_same]

theorem set_insert_comm (s : UnknownFieldSet) {a b : Nat} (hab : a ≠ b)
    (fa fb : UnknownField) :
    (s.insert a fa).insert b fb = (s.insert b fb).insert a fa := by
  obtain ⟨d⟩ := s
  cases d with
  | none =>
    simp only [UnknownFieldSet.insert]
    have h1 : btree_insert b fb [(a, fa)] =
        btree_insert b fb (btree_insert a fa []) := rfl
    have h2 : btree_insert a fa [(b, fb)] =
        btree_insert a fa (btree_insert b fb []) := rfl
    rw [h1, h2, btree_insert_comm hab]
  | some m => simp [UnknownFieldSet.insert, btree_insert_comm hab]

theorem set_insert_size_value (s : UnknownFieldSet) (k : Nat)
    (f1 f2 : UnknownField) : (s.insert k f1).size = (s.insert k f2).size := by
  obtain ⟨d⟩ := s
  cases d with
  | none => rfl
  | some m =>
    simp only [UnknownFieldSet.insert, UnknownFieldSet.size, UnknownFieldSet.entries]
    have := keys_btree_insert_value k f1 f2 m
    have h1 := congrArg List.length this
    simpa using h1

theorem set_insert_sorted {s : UnknownFieldSet} (k : Nat) (f : UnknownField)
    (h : List.Sorted (· < ·) s.keys) :
    List.Sorted (· < ·) ((s.insert k f).keys) := by
  obtain ⟨d⟩ := s
  cases d with
  | none => simp [UnknownFieldSet.insert, UnknownFieldSet.keys, UnknownFieldSet.entries]
  | some m =>
    simp only [UnknownFieldSet.keys, UnknownFieldSet.entries] at h
    simpa [UnknownFieldSet.insert, UnknownFieldSet.keys, UnknownFieldSet.entries] using
      sorted_btree_insert (k := k) (v := f) h

theorem foldl_add_encoded_len (m : List (Nat × UnknownField)) (a : Nat) :
    m.foldl (fun len p => len + p.2.encoded_len) a =
      a + (m.map fun p => p.2.encoded_len).sum := by
  induction m generalizing a with
  | nil => simp
  | cons p t ih => simp [ih, Nat.add_assoc]

theorem encode_varint_ne_nil (v : Nat) : encode_varint v ≠ [] := by
  rw [encode_varint]
  by_cases h : v < 128 <;> simp [h]

/-- C1: Round trip of a stored unknown field: for every storable
`UnknownField` value (well-formed for its Rust machine types) with any field
number, encoding it with `UnknownField::encode` and then, after the key has
been consumed, parsing the payload back with `UnknownField::parse` using the
same field number and the wire type determined by the variant succeeds and
returns a field equal to the original. -/
theorem unknownField_parse_encode_roundtrip (f : UnknownField) (h : f.WF) :
    UnknownField.parse f.tag f.data.wire_type
      ((UnknownField.encode f).drop (encode_key f.tag f.data.wire_type).length) =
      (some (.ok f), []) := by
  obtain ⟨tag, data⟩ := f
  cases data with
  | Varint v =>
    simp only [UnknownField.encode, UnknownFieldData.wire_type, List.drop_left]
    have hv := decode_encode_varint v []
    rw [List.append_nil] at hv
    simp [UnknownField.parse, UnknownField.parseData, hv]
  | ThirtyTwoBit v =>
    simp only [UnknownField.WF] at h
    have hlen : (le_split 4 v).length = 4 := le_split_length 4 v
    simp only [UnknownField.encode, UnknownFieldData.wire_type, List.drop_left]
    have hmod : v % 256 ^ 4 = v := Nat.mod_eq_of_lt (lt_of_lt_of_eq h (by norm_num))
    simp [UnknownField.parse, UnknownField.parseData, hlen, List.take_of_length_le,
      List.drop_of_length_le, le_bytes_le_split, hmod]
    omega
  | SixtyFourBit v =>
    simp only [UnknownField.WF] at h
    have hlen : (le_split 8 v).length = 8 := le_split_length 8 v
    simp only [UnknownField.encode, UnknownFieldData.wire_type, List.drop_left]
    have hmod : v % 256 ^ 8 = v := Nat.mod_eq_of_lt (lt_of_lt_of_eq h (by norm_num))
    simp [UnknownField.parse, UnknownField.parseData, hlen, List.take_of_length_le,
      List.drop_of_length_le, le_bytes_le_split, hmod]
    omega
  | LengthDelimited bs =>
    simp only [UnknownField.encode, UnknownFieldData.wire_type, List.append_assoc,
      List.drop_left]
    have hv := decode_encode_varint bs.length bs
    simp [UnknownField.parse, UnknownField.parseData, bytes_merge, hv]

/-- Witness for C1 at the concrete field number 1 storing `Varint 5`. -/
theorem unknownField_parse_encode_roundtrip_witness :
    UnknownField.WF ⟨1, UnknownFieldData.Varint 5⟩ ∧
    UnknownField.parse 1 (UnknownFieldData.Varint 5).wire_type
      ((UnknownField.encode ⟨1, UnknownFieldData.Varint 5⟩).drop
        (encode_key 1 (UnknownFieldData.Varint 5).wire_type).length) =
      (some (.ok ⟨1, UnknownFieldData.Varint 5⟩), []) :=
  ⟨by decide, unknownField_parse_encode_roundtrip ⟨1, .Varint 5⟩ (by decide)⟩

/-- C2: Encode ordering and determinism: `UnknownFieldSet::encode` emits the
stored entries in strictly ascending field-number order (the empty set is
trivially ordered and insertion preserves order, and encode emits exactly the
stored entries in that order), the result depends only on the final contents
of the set and not on insertion order (insertions at distinct field numbers
commute), and inserting field numbers 5, 1, 3 in that order emits field 1's
bytes first, then field 3's, then field 5's. -/
theorem unknownFieldSet_encode_ordered_deterministic :
    List.Sorted (· < ·) UnknownFieldSet.default.keys ∧
    (∀ (s : UnknownFieldSet) (k : Nat) (f : UnknownField),
        List.Sorted (· < ·) s.keys → List.Sorted (· < ·) ((s.insert k f).keys)) ∧
    (∀ (s : UnknownFieldSet) (a b : Nat) (fa fb : UnknownField), a ≠ b →
        (s.insert a fa).insert b fb = (s.insert b fb).insert a fa) ∧
    (∀ s : UnknownFieldSet,
        s.encode = (s.entries.map fun p => p.2.encode).flatten) ∧
    (((UnknownFieldSet.default.insert 5 ⟨5, .Varint 50⟩).insert 1
          ⟨1, .Varint 10⟩).insert 3 ⟨3, .Varint 30⟩).encode =
      UnknownField.encode ⟨1, .Varint 10⟩ ++ UnknownField.encode ⟨3, .Varint 30⟩ ++
        UnknownField.encode ⟨5, .Varint 50⟩ := by
  refine ⟨?_, ?_, ?_, ?_, ?_⟩
  · simp [UnknownFieldSet.default, UnknownFieldSet.keys, UnknownFieldSet.entries]
  · intro s k f hs
    exact set_insert_sorted k f hs
  · intro s a b fa fb hab
    exact set_insert_comm s hab fa fb
  · intro s
    obtain ⟨d⟩ := s
    cases d <;> simp [UnknownFieldSet.encode, UnknownFieldSet.entries]
  · have hset : ((UnknownFieldSet.default.insert 5 ⟨5, .Varint 50⟩).insert 1
          ⟨1, .Varint 10⟩).insert 3 ⟨3, .Varint 30⟩ =
        ⟨some [(1, ⟨1, .Varint 10⟩), (3, ⟨3, .Varint 30⟩), (5, ⟨5, .Varint 50⟩)]⟩ := rfl
    rw [hset]
    simp [UnknownFieldSet.encode]

/-- Witness for C2: sortedness is preserved when inserting field 2 into the
empty set, and insertions at the distinct field numbers 1 and 2 commute. -/
theorem unknownFieldSet_encode_ordered_deterministic_witness :
    List.Sorted (· < ·) ((UnknownFieldSet.default.insert 2 ⟨2, .Varint 9⟩).keys) ∧
    (UnknownFieldSet.default.insert 1 ⟨1, .Varint 9⟩).insert 2 ⟨2, .Varint 8⟩ =
      (UnknownFieldSet.default.insert 2 ⟨2, .Varint 8⟩).insert 1 ⟨1, .Varint 9⟩ :=
  ⟨unknownFieldSet_encode_ordered_deterministic.2.1 UnknownFieldSet.default 2
      ⟨2, .Varint 9⟩
      (by simp [UnknownFieldSet.default, UnknownFieldSet.keys, UnknownFieldSet.entries]),
    unknownFieldSet_encode_ordered_deterministic.2.2.1 UnknownFieldSet.default 1 2
      ⟨1, .Varint 9⟩ ⟨2, .Varint 8⟩ (by decide)⟩

/-- C3: Length computation agrees with encoding: for every `UnknownField`,
`encoded_len` equals the number of bytes `encode` writes; consequently, for
every `UnknownFieldSet`, `encoded_len` equals the sum of the per-entry encoded
lengths and equals the number of bytes `UnknownFieldSet::encode` writes. -/
theorem encoded_len_agrees_with_encode :
    (∀ f : UnknownField, f.encoded_len = f.encode.length) ∧
    (∀ s : UnknownFieldSet,
        s.encoded_len = (s.entries.map fun p => p.2.encoded_len).sum ∧
        s.encoded_len = s.encode.length) := by
  constructor
  · exact encoded_len_eq_length_encode
  · intro s
    obtain ⟨d⟩ := s
    cases d with
    | none =>
      simp [UnknownFieldSet.encoded_len, UnknownFieldSet.encode, UnknownFieldSet.entries]
    | some m =>
      constructor
      · simp [UnknownFieldSet.encoded_len, UnknownFieldSet.entries, foldl_add_encoded_len]
      · simp only [UnknownFieldSet.encoded_len, UnknownFieldSet.encode]
        rw [foldl_add_encoded_len]
        simp [List.length_flatten, Function.comp_def, encoded_len_eq_length_encode]

/-- C4: Atomicity of the single write entry point `skip_unknown_field`: when
the underlying parse succeeds with a stored value it returns success and
inserts (or overwrites) exactly the entry keyed by the tag, leaving every
other field number unchanged; when the parse stores nothing (skipped group)
it returns success with the set unchanged; when the parse fails it returns
that error with the set unchanged. -/
theorem skip_unknown_field_atomicity :
    ∀ (s : UnknownFieldSet) (tag : Nat) (wire_type : WireType) (buf : List Nat),
      (∀ f rest, UnknownField.parse tag wire_type buf = (some (.ok f), rest) →
        s.skip_unknown_field tag wire_type buf = (.ok (), s.insert tag f, rest) ∧
        (s.insert tag f).get tag = some f ∧
        ∀ j, j ≠ tag → (s.insert tag f).get j = s.get j) ∧
      (∀ rest, UnknownField.parse tag wire_type buf = (none, rest) →
        s.skip_unknown_field tag wire_type buf = (.ok (), s, rest)) ∧
      (∀ e rest, UnknownField.parse tag wire_type buf = (some (.error e), rest) →
        s.skip_unknown_field tag wire_type buf = (.error e, s, rest)) := by
  intro s tag wire_type buf
  refine ⟨?_, ?_, ?_⟩
  · intro f rest hp
    refine ⟨?_, set_insert_get_self s tag f, fun j hj => set_insert_get_ne s hj f⟩
    simp [UnknownFieldSet.skip_unknown_field, hp]
  · intro rest hp
    simp [UnknownFieldSet.skip_unknown_field, hp]
  · intro e rest hp
    simp [UnknownFieldSet.skip_unknown_field, hp]

/-- Witness for C4 on concrete buffers: a stored varint inserts one entry, an
immediately closed group stores nothing, and an empty varint buffer propagates
the error leaving the set unchanged. -/
theorem skip_unknown_field_atomicity_witness :
    UnknownFieldSet.default.skip_unknown_field 1 .Varint [5] =
      (.ok (), UnknownFieldSet.default.insert 1 ⟨1, .Varint 5⟩, []) ∧
    UnknownFieldSet.default.skip_unknown_field 4 .StartGroup [36] =
      (.ok (), UnknownFieldSet.default, []) ∧
    UnknownFieldSet.default.skip_unknown_field 1 .Varint [] =
      (.error "invalid varint", UnknownFieldSet.default, []) :=
  ⟨((skip_unknown_field_atomicity UnknownFieldSet.default 1 .Varint [5]).1
      ⟨1, .Varint 5⟩ [] rfl).1,
    (skip_unknown_field_atomicity UnknownFieldSet.default 4 .StartGroup [36]).2.1 [] rfl,
    (skip_unknown_field_atomicity UnknownFieldSet.default 1 .Varint []).2.2
      "invalid varint" [] rfl⟩

theorem set_insert_data_isSome (s : UnknownFieldSet) (k : Nat) (f : UnknownField) :
    ((s.insert k f).data).isSome := by
  obtain ⟨d⟩ := s
  cases d <;> simp [UnknownFieldSet.insert]

/-- C5: Empty-set representation invariant: a default `UnknownFieldSet` has no
allocated backing storage (`data = none`); after any insertion the backing
storage exists; whenever the option is non-empty the contained map is
non-empty; and `skip_unknown_field` (the only mutating operation; `encode`
and `encoded_len` take the set by shared reference) never returns the data
option to the empty state. -/
theorem unknownFieldSet_empty_representation :
    UnknownFieldSet.default.data = none ∧
    (∀ (s : UnknownFieldSet) (k : Nat) (f : UnknownField),
        ((s.insert k f).data).isSome) ∧
    (∀ (s : UnknownFieldSet) (k : Nat) (f : UnknownField)
        (m : List (Nat × UnknownField)), (s.insert k f).data = some m → m ≠ []) ∧
    (∀ (s : UnknownFieldSet) (tag : Nat) (w : WireType) (buf : List Nat),
        s.data.isSome → (((s.skip_unknown_field tag w buf).2.1).data).isSome) := by
  refine ⟨rfl, set_insert_data_isSome, ?_, ?_⟩
  · intro s k f m hm
    obtain ⟨d⟩ := s
    cases d with
    | none =>
      simp only [UnknownFieldSet.insert, Option.some.injEq] at hm
      rw [← hm]
      simp
    | some m0 =>
      simp only [UnknownFieldSet.insert, Option.some.injEq] at hm
      rw [← hm]
      exact btree_insert_ne_nil k f m0
  · intro s tag w buf hs
    rcases hpar : UnknownField.parse tag w buf with ⟨o, rest⟩
    cases o with
    | none => simpa [UnknownFieldSet.skip_unknown_field, hpar] using hs
    | some r =>
      cases r with
      | ok f =>
        simp [UnknownFieldSet.skip_unknown_field, hpar, set_insert_data_isSome]
      | error e => simpa [UnknownFieldSet.skip_unknown_field, hpar] using hs

/-- Witness for C5: concrete instances of the hypothesis-bearing conjuncts:
inserting field 1 into the empty set yields a non-empty map, and skipping a
varint field starting from a non-empty set keeps the storage allocated. -/
theorem unknownFieldSet_empty_representation_witness :
    ([(1, (⟨1, .Varint 5⟩ : UnknownField))] : List (Nat × UnknownField)) ≠ [] ∧
    ((((UnknownFieldSet.default.insert 1 ⟨1, .Varint 5⟩).skip_unknown_field 2
        .Varint [7]).2.1).data).isSome :=
  ⟨unknownFieldSet_empty_representation.2.2.1 UnknownFieldSet.default 1
      ⟨1, .Varint 5⟩ [(1, ⟨1, .Varint 5⟩)] rfl,
    unknownFieldSet_empty_representation.2.2.2
      (UnknownFieldSet.default.insert 1 ⟨1, .Varint 5⟩) 2 .Varint [7] rfl⟩

/-- C6: Extension accessor result classification: `ExtFieldOptional::get`
returns `none` when the accessor's field number is absent from the owning
message's unknown-field set (absence is never an error); when the field number
is present it returns `some` of the result of `decode_from_unknown` (decoded
value or decode error); in particular a stored `LengthDelimited` payload
requested as the numeric scalar u64 yields `some` of an error, not `none`. -/
theorem extFieldOptional_get_classification :
    (∀ (F : Type) (dec : UnknownField → Except DecodeError F) (fn : Nat)
        (m : OwningMessage), m.unknown_fields.get fn = none →
        ExtFieldOptional.get ⟨fn⟩ dec m = none) ∧
    (∀ (F : Type) (dec : UnknownField → Except DecodeError F) (fn : Nat)
        (m : OwningMessage) (f : UnknownField), m.unknown_fields.get fn = some f →
        ExtFieldOptional.get ⟨fn⟩ dec m = some (dec f)) ∧
    (∃ e, ExtFieldOptional.get ⟨9⟩ UInt64Value.decode_from_unknown
        ⟨UnknownFieldSet.default.insert 9 ⟨9, .LengthDelimited [1, 2]⟩⟩ =
        some (.error e)) := by
  refine ⟨?_, ?_, ?_⟩
  · intro F dec fn m hnone
    obtain ⟨⟨d⟩⟩ := m
    cases d with
    | none => simp [ExtFieldOptional.get, OwningMessage.get_unknown_fields]
    | some m1 =>
      simp only [UnknownFieldSet.get] at hnone
      simp [ExtFieldOptional.get, OwningMessage.get_unknown_fields, hnone]
  · intro F dec fn m f hsome
    obtain ⟨⟨d⟩⟩ := m
    cases d with
    | none => simp [UnknownFieldSet.get] at hsome
    | some m1 =>
      simp only [UnknownFieldSet.get] at hsome
      simp [ExtFieldOptional.get, OwningMessage.get_unknown_fields, hsome]
  · exact ⟨_, rfl⟩

/-- Witness for C6: field 3 absent from an empty set yields no result, and a
present field 1 yields the decoder's output. -/
theorem extFieldOptional_get_classification_witness :
    ExtFieldOptional.get ⟨3⟩ BoolValue.decode_from_unknown
        ⟨UnknownFieldSet.default⟩ = none ∧
    ExtFieldOptional.get ⟨1⟩ BoolValue.decode_from_unknown
        ⟨UnknownFieldSet.default.insert 1 ⟨1, .Varint 7⟩⟩ =
      some (BoolValue.decode_from_unknown ⟨1, .Varint 7⟩) :=
  ⟨extFieldOptional_get_classification.1 Bool BoolValue.decode_from_unknown 3
      ⟨UnknownFieldSet.default⟩ rfl,
    extFieldOptional_get_classification.2.1 Bool BoolValue.decode_from_unknown 1
      ⟨UnknownFieldSet.default.insert 1 ⟨1, .Varint 7⟩⟩ ⟨1, .Varint 7⟩ rfl⟩

theorem append_encode_key_ne_nil (tag : Nat) (wt : WireType) (x : List Nat) :
    encode_key tag wt ++ x ≠ [] := by
  intro hc
  have h1 := (List.append_eq_nil.mp hc).1
  rw [encode_key] at h1
  exact encode_varint_ne_nil _ h1

theorem key_len_one : key_len 1 = 1 := by
  simp [key_len, encoded_len_varint, encode_varint]

/-- C7: Wrapper default omission: for every scalar wrapper type in
bool, u32, u64, i32, i64, f32, f64, string, byte-sequence and unit,
`encode_raw` writes zero bytes and `encoded_len` returns 0 at the type's
default value (false, 0, an IEEE zero bit pattern, the empty string or byte
sequence, unit), and at every non-default value `encode_raw` emits exactly one
field with field number 1 in the type's scalar wire encoding (non-empty
output) with `encoded_len` equal to the number of bytes written. -/
theorem wrapper_default_omission :
    (BoolValue.encode_raw false = [] ∧ BoolValue.encoded_len false = 0 ∧
      ∀ b : Bool, b ≠ false → BoolValue.encode_raw b = bool_encode 1 b ∧
        BoolValue.encode_raw b ≠ [] ∧
        BoolValue.encoded_len b = (BoolValue.encode_raw b).length) ∧
    (UInt32Value.encode_raw 0 = [] ∧ UInt32Value.encoded_len 0 = 0 ∧
      ∀ v : Nat, v < 2 ^ 32 → v ≠ 0 → UInt32Value.encode_raw v = uint32_encode 1 v ∧
        UInt32Value.encode_raw v ≠ [] ∧
        UInt32Value.encoded_len v = (UInt32Value.encode_raw v).length) ∧
    (UInt64Value.encode_raw 0 = [] ∧ UInt64Value.encoded_len 0 = 0 ∧
      ∀ v : Nat, v < 2 ^ 64 → v ≠ 0 → UInt64Value.encode_raw v = uint64_encode 1 v ∧
        UInt64Value.encode_raw v ≠ [] ∧
        UInt64Value.encoded_len v = (UInt64Value.encode_raw v).length) ∧
    (Int32Value.encode_raw 0 = [] ∧ Int32Value.encoded_len 0 = 0 ∧
      ∀ v : Int, -(2 ^ 31) ≤ v → v < 2 ^ 31 → v ≠ 0 →
        Int32Value.encode_raw v = int32_encode 1 v ∧
        Int32Value.encode_raw v ≠ [] ∧
        Int32Value.encoded_len v = (Int32Value.encode_raw v).length) ∧
    (Int64Value.encode_raw 0 = [] ∧ Int64Value.encoded_len 0 = 0 ∧
      ∀ v : Int, -(2 ^ 63) ≤ v → v < 2 ^ 63 → v ≠ 0 →
        Int64Value.encode_raw v = int64_encode 1 v ∧
        Int64Value.encode_raw v ≠ [] ∧
        Int64Value.encoded_len v = (Int64Value.encode_raw v).length) ∧
    (∀ bits : Nat, bits < 2 ^ 32 →
      (f32_eq_zero bits = true →
        FloatValue.encode_raw bits = [] ∧ FloatValue.encoded_len bits = 0) ∧
      (f32_eq_zero bits = false →
        FloatValue.encode_raw bits = float_encode 1 bits ∧
        FloatValue.encode_raw bits ≠ [] ∧
        FloatValue.encoded_len bits = (FloatValue.encode_raw bits).length)) ∧
    (∀ bits : Nat, bits < 2 ^ 64 →
      (f64_eq_zero bits = true →
        DoubleValue.encode_raw bits = [] ∧ DoubleValue.encoded_len bits = 0) ∧
      (f64_eq_zero bits = false →
        DoubleValue.encode_raw bits = double_encode 1 bits ∧
        DoubleValue.encode_raw bits ≠ [] ∧
        DoubleValue.encoded_len bits = (DoubleValue.encode_raw bits).length)) ∧
    (StringValue.encode_raw [] = [] ∧ StringValue.encoded_len [] = 0 ∧
      ∀ s : List Nat, s ≠ [] → StringValue.encode_raw s = bytes_encode 1 s ∧
        StringValue.encode_raw s ≠ [] ∧
        StringValue.encoded_len s = (StringValue.encode_raw s).length) ∧
    (BytesValue.encode_raw [] = [] ∧ BytesValue.encoded_len [] = 0 ∧
      ∀ s : List Nat, s ≠ [] → BytesValue.encode_raw s = bytes_encode 1 s ∧
        BytesValue.encode_raw s ≠ [] ∧
        BytesValue.encoded_len s = (BytesValue.encode_raw s).length) ∧
    (EmptyValue.encode_raw () = [] ∧ EmptyValue.encoded_len () = 0) := by
  refine ⟨⟨rfl, rfl, ?_⟩, ⟨by simp [UInt32Value.encode_raw],
      by simp [UInt32Value.encoded_len], ?_⟩,
    ⟨by simp [UInt64Value.encode_raw], by simp [UInt64Value.encoded_len], ?_⟩,
    ⟨by simp [Int32Value.encode_raw], by simp [Int32Value.encoded_len], ?_⟩,
    ⟨by simp [Int64Value.encode_raw], by simp [Int64Value.encoded_len], ?_⟩,
    ?_, ?_,
    ⟨by simp [StringValue.encode_raw], by simp [StringValue.encoded_len], ?_⟩,
    ⟨by simp [BytesValue.encode_raw], by simp [BytesValue.encoded_len], ?_⟩,
    rfl, rfl⟩
  · intro b hb
    have hbtrue : b = true := by cases b <;> simp_all
    subst hbtrue
    refine ⟨rfl, ?_, ?_⟩
    · show bool_encode 1 true ≠ []
      rw [bool_encode]
      exact append_encode_key_ne_nil 1 .Varint _
    · show 2 = (bool_encode 1 true).length
      simp [bool_encode, length_encode_key, key_len_one]
  · intro v _ hv0
    refine ⟨by simp [UInt32Value.encode_raw, hv0], ?_, ?_⟩
    · simp only [UInt32Value.encode_raw, hv0, if_true, ite_true, ne_eq]
      rw [uint32_encode]
      exact append_encode_key_ne_nil 1 .Varint _
    · simp [UInt32Value.encode_raw, UInt32Value.encoded_len, hv0, uint32_encode,
        uint32_encoded_len, length_encode_key, encoded_len_varint]
  · intro v _ hv0
    refine ⟨by simp [UInt64Value.encode_raw, hv0], ?_, ?_⟩
    · simp only [UInt64Value.encode_raw, hv0, if_true, ite_true, ne_eq]
      rw [uint64_encode]
      exact append_encode_key_ne_nil 1 .Varint _
    · simp [UInt64Value.encode_raw, UInt64Value.encoded_len, hv0, uint64_encode,
        uint64_encoded_len, length_encode_key, encoded_len_varint]
  · intro v _ _ hv0
    refine ⟨by simp [Int32Value.encode_raw, hv0], ?_, ?_⟩
    · simp only [Int32Value.encode_raw, hv0, if_true, ite_true, ne_eq]
      rw [int32_encode]
      exact append_encode_key_ne_nil 1 .Varint _
    · simp [Int32Value.encode_raw, Int32Value.encoded_len, hv0, int32_encode,
        int_encoded_len, length_encode_key, encoded_len_varint]
  · intro v _ _ hv0
    refine ⟨by simp [Int64Value.encode_raw, hv0], ?_, ?_⟩
    · simp only [Int64Value.encode_raw, hv0, if_true, ite_true, ne_eq]
      rw [int64_encode]
      exact append_encode_key_ne_nil 1 .Varint _
    · simp [Int64Value.encode_raw, Int64Value.encoded_len, hv0, int64_encode,
        int_encoded_len, length_encode_key, encoded_len_varint]
  · intro bits _
    constructor
    · intro hz
      constructor <;> simp [FloatValue.encode_raw, FloatValue.encoded_len, hz]
    · intro hz
      refine ⟨by simp [FloatValue.encode_raw, hz], ?_, ?_⟩
      · simp only [FloatValue.encode_raw, hz, Bool.not_false, if_true, ite_true, ne_eq]
        rw [float_encode]
        exact append_encode_key_ne_nil 1 .ThirtyTwoBit _
      · simp [FloatValue.encode_raw, FloatValue.encoded_len, hz, float_encode,
          float_encoded_len, length_encode_key, le_split_length]
  · intro bits _
    constructor
    · intro hz
      constructor <;> simp [DoubleValue.encode_raw, DoubleValue.encoded_len, hz]
    · intro hz
      refine ⟨by simp [DoubleValue.encode_raw, hz], ?_, ?_⟩
      · simp only [DoubleValue.encode_raw, hz, Bool.not_false, if_true, ite_true, ne_eq]
        rw [double_encode]
        exact append_encode_key_ne_nil 1 .SixtyFourBit _
      · simp [DoubleValue.encode_raw, DoubleValue.encoded_len, hz, double_encode,
          double_encoded_len, length_encode_key, le_split_length]
  · intro s hs
    refine ⟨by simp [StringValue.encode_raw, hs], ?_, ?_⟩
    · have h1 : StringValue.encode_raw s = bytes_encode 1 s := by
        simp [StringValue.encode_raw, hs]
      rw [h1, bytes_encode, List.append_assoc]
      exact append_encode_key_ne_nil 1 .LengthDelimited _
    · simp [StringValue.encode_raw, StringValue.encoded_len, hs, bytes_encode,
        bytes_encoded_len, length_encode_key, encoded_len_varint, Nat.add_assoc]
  · intro s hs
    refine ⟨by simp [BytesValue.encode_raw, hs], ?_, ?_⟩
    · have h1 : BytesValue.encode_raw s = bytes_encode 1 s := by
        simp [BytesValue.encode_raw, hs]
      rw [h1, bytes_encode, List.append_assoc]
      exact append_encode_key_ne_nil 1 .LengthDelimited _
    · simp [BytesValue.encode_raw, BytesValue.encoded_len, hs, bytes_encode,
        bytes_encoded_len, length_encode_key, encoded_len_varint, Nat.add_assoc]

/-- Witness for C7: the length agreement instantiated at one concrete
non-default value of each hypothesis-bearing wrapper type. -/
theorem wrapper_default_omission_witness :
    BoolValue.encoded_len true = (BoolValue.encode_raw true).length ∧
    UInt32Value.encoded_len 5 = (UInt32Value.encode_raw 5).length ∧
    UInt64Value.encoded_len 300 = (UInt64Value.encode_raw 300).length ∧
    Int32Value.encoded_len (-3) = (Int32Value.encode_raw (-3)).length ∧
    Int64Value.encoded_len 12 = (Int64Value.encode_raw 12).length ∧
    FloatValue.encoded_len 1 = (FloatValue.encode_raw 1).length ∧
    DoubleValue.encoded_len 2 = (DoubleValue.encode_raw 2).length ∧
    StringValue.encoded_len [104] = (StringValue.encode_raw [104]).length ∧
    BytesValue.encoded_len [0] = (BytesValue.encode_raw [0]).length :=
  ⟨(wrapper_default_omission.1.2.2 true (by decide)).2.2,
    (wrapper_default_omission.2.1.2.2 5 (by decide) (by decide)).2.2,
    (wrapper_default_omission.2.2.1.2.2 300 (by decide) (by decide)).2.2,
    (wrapper_default_omission.2.2.2.1.2.2 (-3) (by decide) (by decide) (by decide)).2.2,
    (wrapper_default_omission.2.2.2.2.1.2.2 12 (by decide) (by decide) (by decide)).2.2,
    ((wrapper_default_omission.2.2.2.2.2.1 1 (by decide)).2 (by decide)).2.2,
    ((wrapper_default_omission.2.2.2.2.2.2.1 2 (by decide)).2 (by decide)).2.2,
    (wrapper_default_omission.2.2.2.2.2.2.2.1.2.2 [104] (by decide)).2.2,
    (wrapper_default_omission.2.2.2.2.2.2.2.2.1.2.2 [0] (by decide)).2.2⟩

/-- C8: Fixed-width parse bounds: parsing an unknown field with wire type
Fixed32 (resp. Fixed64) fails with the buffer-underflow decode error when
fewer than 4 (resp. 8) bytes remain, and otherwise succeeds, consuming
exactly 4 (resp. 8) bytes interpreted as a little-endian unsigned integer;
the length check precedes every read, so no out-of-bounds read occurs. -/
theorem fixed_width_parse_bounds :
    ∀ (tag : Nat) (buf : List Nat),
      (buf.length < 4 → UnknownField.parse tag .ThirtyTwoBit buf =
        (some (.error "buffer underflow"), buf)) ∧
      (4 ≤ buf.length → UnknownField.parse tag .ThirtyTwoBit buf =
        (some (.ok ⟨tag, .ThirtyTwoBit (le_bytes (buf.take 4))⟩), buf.drop 4)) ∧
      (buf.length < 8 → UnknownField.parse tag .SixtyFourBit buf =
        (some (.error "buffer underflow"), buf)) ∧
      (8 ≤ buf.length → UnknownField.parse tag .SixtyFourBit buf =
        (some (.ok ⟨tag, .SixtyFourBit (le_bytes (buf.take 8))⟩), buf.drop 8)) := by
  intro tag buf
  refine ⟨?_, ?_, ?_, ?_⟩
  · intro h
    simp [UnknownField.parse, UnknownField.parseData, h]
  · intro h
    have h4 : ¬ buf.length < 4 := by omega
    simp [UnknownField.parse, UnknownField.parseData, h4]
  · intro h
    simp [UnknownField.parse, UnknownField.parseData, h]
  · intro h
    have h8 : ¬ buf.length < 8 := by omega
    simp [UnknownField.parse, UnknownField.parseData, h8]

/-- Witness for C8 on concrete buffers of lengths 3 and 4 (Fixed32) and
lengths 3 and 8 (Fixed64). -/
theorem fixed_width_parse_bounds_witness :
    UnknownField.parse 2 .ThirtyTwoBit [1, 2, 3] =
      (some (.error "buffer underflow"), [1, 2, 3]) ∧
    UnknownField.parse 2 .ThirtyTwoBit [16, 0, 0, 0] =
      (some (.ok ⟨2, .ThirtyTwoBit (le_bytes ([16, 0, 0, 0].take 4))⟩),
        [16, 0, 0, 0].drop 4) ∧
    UnknownField.parse 2 .SixtyFourBit [1, 2, 3] =
      (some (.error "buffer underflow"), [1, 2, 3]) ∧
    UnknownField.parse 2 .SixtyFourBit [9, 0, 0, 0, 0, 0, 0, 0] =
      (some (.ok ⟨2, .SixtyFourBit (le_bytes ([9, 0, 0, 0, 0, 0, 0, 0].take 8))⟩),
        [9, 0, 0, 0, 0, 0, 0, 0].drop 8) :=
  ⟨(fixed_width_parse_bounds 2 [1, 2, 3]).1 (by decide),
    (fixed_width_parse_bounds 2 [16, 0, 0, 0]).2.1 (by decide),
    (fixed_width_parse_bounds 2 [1, 2, 3]).2.2.1 (by decide),
    (fixed_width_parse_bounds 2 [9, 0, 0, 0, 0, 0, 0, 0]).2.2.2 (by decide)⟩

/-- C9: Last-write-wins on duplicate field numbers: re-inserting under an
already present field number replaces the previous value (inserting twice
equals inserting the second value alone), the entry retrieved afterwards is
the second value, the set's size does not grow, and concretely inserting
field number 7 twice with different values leaves exactly one entry for 7
holding the second value. -/
theorem insert_last_write_wins :
    (∀ (s : UnknownFieldSet) (k : Nat) (f1 f2 : UnknownField),
        (s.insert k f1).insert k f2 = s.insert k f2) ∧
    (∀ (s : UnknownFieldSet) (k : Nat) (f : UnknownField),
        (s.insert k f).get k = some f) ∧
    (∀ (s : UnknownFieldSet) (k : Nat) (f1 f2 : UnknownField),
        ((s.insert k f1).insert k f2).size = (s.insert k f1).size) ∧
    ((UnknownFieldSet.default.insert 7 ⟨7, .Varint 1⟩).insert 7 ⟨7, .Varint 2⟩ =
        UnknownFieldSet.default.insert 7 ⟨7, .Varint 2⟩ ∧
      ((UnknownFieldSet.default.insert 7 ⟨7, .Varint 1⟩).insert 7
          ⟨7, .Varint 2⟩).get 7 = some ⟨7, .Varint 2⟩ ∧
      ((UnknownFieldSet.default.insert 7 ⟨7, .Varint 1⟩).insert 7
          ⟨7, .Varint 2⟩).size = 1) := by
  refine ⟨set_insert_insert_same, set_insert_get_self, ?_, rfl, rfl, rfl⟩
  intro s k f1 f2
  rw [set_insert_insert_same]
  exact set_insert_size_value s k f2 f1

/-- C10: `bool`'s `decode_from_unknown` maps every stored Varint value `v` to
the boolean `v != 0` — so any nonzero varint, not only 1, decodes to true
(concretely, the stored varint 7 decodes to true) — and fails with the
mismatch decode error for every stored Fixed32, Fixed64 or LengthDelimited
value. -/
theorem bool_decode_from_unknown_spec :
    (∀ (tag v : Nat),
        BoolValue.decode_from_unknown ⟨tag, .Varint v⟩ = .ok (v != 0)) ∧
    BoolValue.decode_from_unknown ⟨1, .Varint 7⟩ = .ok true ∧
    (∀ (tag u : Nat), BoolValue.decode_from_unknown ⟨tag, .ThirtyTwoBit u⟩ =
        .error ("cannot decode bool from " ++
          (UnknownFieldData.ThirtyTwoBit u).debugStr)) ∧
    (∀ (tag u : Nat), BoolValue.decode_from_unknown ⟨tag, .SixtyFourBit u⟩ =
        .error ("cannot decode bool from " ++
          (UnknownFieldData.SixtyFourBit u).debugStr)) ∧
    (∀ (tag : Nat) (bs : List Nat),
        BoolValue.decode_from_unknown ⟨tag, .LengthDelimited bs⟩ =
        .error ("cannot decode bool from " ++
          (UnknownFieldData.LengthDelimited bs).debugStr)) := by
  exact ⟨fun tag v => rfl, rfl, fun tag u => rfl, fun tag u => rfl, fun tag bs => rfl⟩
